import Mathlib

/-!
# ActionIP Aggregator — verification of the Gate Decision Engine and stores

Shallow embedding of the repository's decision logic and storage behaviour.

Sources embedded here:
* `src/config.js` — the two policy scalars `MAX_RUNS_PER_IP_PER_DAY` and
  `MIN_GAP_HOURS_PER_IP` (→ `Policy`).
* `src/app.js`, handler `app.post('/gate')` (the `chronRecords`/`validRuns`
  replay version — the one exercised by `tests/ooo.test.js` and
  `tests/concurrency.test.js`) — → `gateDecision`, `gateEndpoint`.
* `src/storage.js` — `getRecordsForIpToday` (fail-open read) and
  `cleanupGCS` (both the local-filesystem walk and the bucket listing sweep).
* `src/app.js`, middleware `verifyAuth` — bearer token plus optional HMAC
  second factor.

Timestamps are modelled as integer milliseconds since the epoch (the value of
`new Date(x).getTime()` / `parseISO(x)` in the source).  Run identifiers are
strings; `a.run_id.localeCompare(b.run_id)` on the opaque identifiers is
modelled by the lexicographic order on their character sequences (`ridLt`,
`ridLE` below).
-/

/-! ## Lexicographic order on run identifiers (`localeCompare`) -/

/-- Strict lexicographic comparison of character sequences: the model of
`a.localeCompare(b) < 0` for the opaque run identifiers. -/
def lexLtb : List Char → List Char → Bool
  | [], [] => false
  | [], _ :: _ => true
  | _ :: _, [] => false
  | a :: as, b :: bs =>
    if a < b then true
    else if a = b then lexLtb as bs
    else false

theorem lexLtb_irrefl : ∀ as : List Char, lexLtb as as = false
  | [] => rfl
  | a :: as => by
    simp only [lexLtb]
    rw [if_neg (lt_irrefl a)]
    simpa using lexLtb_irrefl as

theorem lexLtb_trans : ∀ {as bs cs : List Char},
    lexLtb as bs = true → lexLtb bs cs = true → lexLtb as cs = true
  | [], [], _, hab, _ => absurd hab (by simp [lexLtb])
  | _ :: _, [], _, hab, _ => absurd hab (by simp [lexLtb])
  | _, _ :: _, [], _, hbc => absurd hbc (by simp [lexLtb])
  | [], _ :: _, _ :: _, _, _ => rfl
  | a :: as, b :: bs, c :: cs, hab, hbc => by
    simp only [lexLtb] at hab hbc ⊢
    by_cases h1 : a < b
    · by_cases h2 : b < c
      · rw [if_pos (h1.trans h2)]
      · rw [if_neg h2] at hbc
        by_cases h2' : b = c
        · subst h2'
          rw [if_pos h1]
        · rw [if_neg h2'] at hbc
          cases hbc
    · rw [if_neg h1] at hab
      by_cases h1' : a = b
      · subst h1'
        rw [if_pos rfl] at hab
        by_cases h2 : a < c
        · rw [if_pos h2]
        · rw [if_neg h2] at hbc ⊢
          by_cases h2' : a = c
          · rw [if_pos h2'] at hbc ⊢
            exact lexLtb_trans hab hbc
          · rw [if_neg h2'] at hbc
            cases hbc
      · rw [if_neg h1'] at hab
        cases hab

theorem lexLtb_trichotomy : ∀ as bs : List Char,
    lexLtb as bs = true ∨ as = bs ∨ lexLtb bs as = true
  | [], [] => Or.inr (Or.inl rfl)
  | [], _ :: _ => Or.inl rfl
  | _ :: _, [] => Or.inr (Or.inr rfl)
  | a :: as, b :: bs => by
    rcases lt_trichotomy a b with h | h | h
    · refine Or.inl ?_
      simp only [lexLtb]
      rw [if_pos h]
    · subst h
      rcases lexLtb_trichotomy as bs with h' | h' | h'
      · refine Or.inl ?_
        simp only [lexLtb]
        rw [if_neg (lt_irrefl a)]
        simpa using h'
      · exact Or.inr (Or.inl (by rw [h']))
      · refine Or.inr (Or.inr ?_)
        simp only [lexLtb]
        rw [if_neg (lt_irrefl a)]
        simpa using h'
    · refine Or.inr (Or.inr ?_)
      simp only [lexLtb]
      rw [if_pos h]

theorem lexLtb_asymm {as bs : List Char} (h : lexLtb as bs = true) :
    lexLtb bs as = false := by
  cases hba : lexLtb bs as
  · rfl
  · exact absurd (lexLtb_irrefl as) (by rw [lexLtb_trans h hba]; simp)

/-- Holds when `a.run_id.localeCompare(b.run_id) < 0`: the run identifier of `a` is
lexicographically strictly smaller. -/
def ridLt (a b : String) : Prop := lexLtb a.data b.data = true

/-- Non-strict lexicographic order on run identifiers. -/
def ridLE (a b : String) : Prop := ridLt a b ∨ a = b

instance : DecidableRel ridLt := fun _ _ =>
  inferInstanceAs (Decidable (_ = _))

instance : DecidableRel ridLE := fun _ _ =>
  inferInstanceAs (Decidable (_ ∨ _))

theorem ridLE_refl (a : String) : ridLE a a := Or.inr rfl

theorem ridLE_trans {a b c : String} (hab : ridLE a b) (hbc : ridLE b c) :
    ridLE a c := by
  rcases hab with hab | rfl
  · rcases hbc with hbc | rfl
    · exact Or.inl (lexLtb_trans hab hbc)
    · exact Or.inl hab
  · exact hbc

theorem ridLE_antisymm {a b : String} (hab : ridLE a b) (hba : ridLE b a) :
    a = b := by
  rcases hab with hab | rfl
  · rcases hba with hba | rfl
    · have h := lexLtb_asymm hba
      rw [ridLt] at hab
      rw [h] at hab
      cases hab
    · rfl
  · rfl

theorem ridLE_total (a b : String) : ridLE a b ∨ ridLE b a := by
  rcases lexLtb_trichotomy a.data b.data with h | h | h
  · exact Or.inl (Or.inl h)
  · refine Or.inl (Or.inr ?_)
    cases a; cases b
    exact congrArg String.mk h
  · exact Or.inr (Or.inl h)

/-! ## Data model -/

/-- One usage record as read back from the event-log store.  The decision
algorithm reads exactly two fields of each stored JSON object: the parsed
timestamp `ts` (milliseconds) and the opaque `run_id`. -/
structure UsageRecord where
  ts : Int
  run_id : String
deriving DecidableEq, Repr

/-- The two policy scalars from `config.js`:
`MAX_RUNS_PER_IP_PER_DAY` and `MIN_GAP_HOURS_PER_IP`. -/
structure Policy where
  maxRunsPerIpPerDay : Nat
  minGapHoursPerIp : Int
deriving DecidableEq, Repr

/-- Model of `date-fns` `differenceInHours(later, earlier)`: the difference in
milliseconds divided by 3 600 000, rounded toward zero (the library's default
`trunc` rounding); `Int.tdiv` is exactly JavaScript's `Math.trunc` division. -/
def differenceInHours (later earlier : Int) : Int :=
  (later - earlier).tdiv 3600000

/-- Comparator of the ascending (`chronRecords`) sort in the gate handler:
`new Date(a.ts) - new Date(b.ts)`, ties broken by
`a.run_id.localeCompare(b.run_id)` — ascending timestamp, then ascending
run identifier. -/
def chronLE (a b : UsageRecord) : Prop :=
  a.ts < b.ts ∨ (a.ts = b.ts ∧ ridLE a.run_id b.run_id)

/-- Comparator of the first (descending) sort in the gate handler:
`new Date(b.ts) - new Date(a.ts)`, ties broken by
`a.run_id.localeCompare(b.run_id)` — descending timestamp, then ascending
run identifier. -/
def descLE (a b : UsageRecord) : Prop :=
  b.ts < a.ts ∨ (a.ts = b.ts ∧ ridLE a.run_id b.run_id)

instance : DecidableRel chronLE := fun _ _ =>
  inferInstanceAs (Decidable (_ ∨ _))

instance : DecidableRel descLE := fun _ _ =>
  inferInstanceAs (Decidable (_ ∨ _))

instance : IsTotal UsageRecord chronLE where
  total a b := by
    rcases lt_trichotomy a.ts b.ts with h | h | h
    · exact Or.inl (Or.inl h)
    · rcases ridLE_total a.run_id b.run_id with h' | h'
      · exact Or.inl (Or.inr ⟨h, h'⟩)
      · exact Or.inr (Or.inr ⟨h.symm, h'⟩)
    · exact Or.inr (Or.inl h)

instance : IsTrans UsageRecord chronLE where
  trans a b c hab hbc := by
    rcases hab with h1 | ⟨h1, h1'⟩ <;> rcases hbc with h2 | ⟨h2, h2'⟩
    · exact Or.inl (h1.trans h2)
    · exact Or.inl (by omega)
    · exact Or.inl (by omega)
    · exact Or.inr ⟨h1.trans h2, ridLE_trans h1' h2'⟩

instance : IsAntisymm UsageRecord chronLE where
  antisymm a b hab hba := by
    rcases hab with h1 | ⟨h1, h1'⟩ <;> rcases hba with h2 | ⟨h2, h2'⟩
    · exact absurd (h1.trans h2) (lt_irrefl _)
    · exact absurd h1 (by omega)
    · exact absurd h2 (by omega)
    · cases a; cases b
      cases h1
      cases ridLE_antisymm h1' h2'
      rfl

instance : IsTotal UsageRecord descLE where
  total a b := by
    rcases lt_trichotomy a.ts b.ts with h | h | h
    · exact Or.inr (Or.inl h)
    · rcases ridLE_total a.run_id b.run_id with h' | h'
      · exact Or.inl (Or.inr ⟨h, h'⟩)
      · exact Or.inr (Or.inr ⟨h.symm, h'⟩)
    · exact Or.inl (Or.inl h)

instance : IsTrans UsageRecord descLE where
  trans a b c hab hbc := by
    rcases hab with h1 | ⟨h1, h1'⟩ <;> rcases hbc with h2 | ⟨h2, h2'⟩
    · exact Or.inl (h2.trans h1)
    · exact Or.inl (by omega)
    · exact Or.inl (by omega)
    · exact Or.inr ⟨h1.trans h2, ridLE_trans h1' h2'⟩

instance : IsAntisymm UsageRecord descLE where
  antisymm a b hab hba := by
    rcases hab with h1 | ⟨h1, h1'⟩ <;> rcases hba with h2 | ⟨h2, h2'⟩
    · exact absurd (h1.trans h2) (lt_irrefl _)
    · exact absurd h1 (by omega)
    · exact absurd h2 (by omega)
    · cases a; cases b
      cases h1
      cases ridLE_antisymm h1' h2'
      rfl

/-! ## The gate decision (`app.post('/gate')`, replay version) -/

/-- Model of `records.sort((a, b) => {... new Date(b.ts) - new Date(a.ts) ...})`:
the first, descending sort in the gate handler (newest first, ties by
ascending run id).  `descLE` is a linear order on `UsageRecord`, so any
correct sort — the stable JavaScript `Array.prototype.sort` included —
produces this unique sorted permutation. -/
def sortedDescRecords (records : List UsageRecord) : List UsageRecord :=
  List.insertionSort descLE records

/-- Model of `const chronRecords = [...records].sort(...)`: the handler re-sorts a copy
of the (already descending-sorted) array ascending by timestamp with the
run-id tie-break. -/
def chronRecords (records : List UsageRecord) : List UsageRecord :=
  List.insertionSort chronLE (sortedDescRecords records)

/-- The `for (const rec of chronRecords)` loop of the gate handler, with the
mutable `lastValidTs` threaded explicitly (`none` models the initial
`let lastValidTs = null`). -/
def validRunsLoop (gapH : Int) : List UsageRecord → Option Int → List UsageRecord
  | [], _ => []
  | rec :: rest, none => rec :: validRunsLoop gapH rest (some rec.ts)
  | rec :: rest, some lastValidTs =>
    if differenceInHours rec.ts lastValidTs ≥ gapH then
      rec :: validRunsLoop gapH rest (some rec.ts)
    else
      validRunsLoop gapH rest (some lastValidTs)

/-- Source `validRuns`: the gap-filtered admitted subsequence computed by the gate
handler's replay loop. -/
def validRuns (gapH : Int) (chron : List UsageRecord) : List UsageRecord :=
  validRunsLoop gapH chron none

/-- One gate response body (`result` in the handler).  `last_use_utc` carries
the parsed timestamp; `duplicates` is a constant `0` in the source and is
omitted. -/
structure GateResult where
  should_run : Bool
  reason : String
  uses_today : Nat
  last_use_utc : Option Int
deriving DecidableEq, Repr

/-- The tail of the gate handler: look the caller's `run_id` up in
`validRuns` (`isValid` / `myValidIndex`) and produce the response. -/
def decisionFromValid (cfg : Policy) (valid : List UsageRecord)
    (sortedDesc : List UsageRecord) (myRunId : String) : GateResult :=
  let uses := sortedDesc.length
  let lastUse := sortedDesc.head?.map (·.ts)
  if ¬ (valid.any (fun r => r.run_id == myRunId)) then
    { should_run := false, reason := "gap_not_satisfied",
      uses_today := uses, last_use_utc := lastUse }
  else if valid.findIdx (fun r => r.run_id == myRunId) ≥ cfg.maxRunsPerIpPerDay then
    { should_run := false, reason := "max_runs_reached",
      uses_today := uses, last_use_utc := lastUse }
  else
    { should_run := true, reason := "",
      uses_today := uses, last_use_utc := lastUse }

/-- The pure core of `app.post('/gate')` (the `chronRecords`/`validRuns`
version): sort, replay the gap filter, then decide for the caller's
`run_id`. -/
def gateDecision (cfg : Policy) (records : List UsageRecord)
    (myRunId : String) : GateResult :=
  decisionFromValid cfg
    (validRuns cfg.minGapHoursPerIp (chronRecords records))
    (sortedDescRecords records) myRunId

/-- Outcome of one store read attempt as seen by `getRecordsForIpToday`:
either the backend listed/downloaded a set of records, or the read failed
(backend unreachable, list error). -/
inductive StoreReadOutcome where
  | ok (records : List UsageRecord)
  | readError
deriving DecidableEq, Repr

/-- Source `getRecordsForIpToday`: both backends catch their read errors
(`catch (err) { console.error(...) }`) and fall through to returning the
records gathered so far, so a failed read yields `[]` instead of
propagating the error. -/
def getRecordsForIpToday : StoreReadOutcome → List UsageRecord
  | .ok records => records
  | .readError => []

/-- The full `/gate` route body: `if (!ip) throw` is the only statement that
can reach the surrounding `catch`, which replies
`{ ...result, should_run: true, reason: 'error_fail_open' }` over the default
`result`.  A failed store read never reaches the `catch`: it surfaces as an
empty record list. -/
def gateEndpoint (cfg : Policy) (ipPresent : Bool) (store : StoreReadOutcome)
    (myRunId : String) : GateResult :=
  if ipPresent then
    gateDecision cfg (getRecordsForIpToday store) myRunId
  else
    { should_run := true, reason := "error_fail_open",
      uses_today := 0, last_use_utc := none }

/-! ## The spec-side replay (for the refinement claim) -/

/-- The greedy gap replay exactly as the specification words it, carrying the
most recently *admitted* record: "for each later record, admit it only if
elapsed time since the most recently admitted record (not the most recent
record overall), truncated toward zero in whole hours, is at least the policy
gap; skipped records never become the new last-admitted reference". -/
def specReplayAux (gapH : Int) : List UsageRecord → UsageRecord → List UsageRecord
  | [], _ => []
  | r :: rest, lastAdmitted =>
    if (r.ts - lastAdmitted.ts).tdiv 3600000 ≥ gapH then
      r :: specReplayAux gapH rest r
    else
      specReplayAux gapH rest lastAdmitted

/-- The spec's replay over an ordered sequence: "admit the first record
unconditionally", then walk the rest with `specReplayAux`. -/
def specReplay (gapH : Int) : List UsageRecord → List UsageRecord
  | [] => []
  | first :: rest => first :: specReplayAux gapH rest first

theorem validRunsLoop_eq_specReplayAux (gapH : Int) :
    ∀ (l : List UsageRecord) (lastAdmitted : UsageRecord),
      validRunsLoop gapH l (some lastAdmitted.ts) = specReplayAux gapH l lastAdmitted
  | [], _ => rfl
  | r :: rest, lastAdmitted => by
    simp only [validRunsLoop, specReplayAux, differenceInHours]
    by_cases h : (r.ts - lastAdmitted.ts).tdiv 3600000 ≥ gapH
    · rw [if_pos h, if_pos h, validRunsLoop_eq_specReplayAux gapH rest r]
    · rw [if_neg h, if_neg h, validRunsLoop_eq_specReplayAux gapH rest lastAdmitted]

theorem validRuns_eq_specReplay (gapH : Int) :
    ∀ l : List UsageRecord, validRuns gapH l = specReplay gapH l
  | [] => rfl
  | first :: rest => by
    simp only [validRuns, validRunsLoop, specReplay]
    rw [validRunsLoop_eq_specReplayAux gapH rest first]

/-! ## Helper lemmas about the decision lookup -/

theorem mem_map_iff_any (rid : String) (l : List UsageRecord) :
    rid ∈ l.map (·.run_id) ↔ l.any (fun r => r.run_id == rid) = true := by
  simp only [List.any_eq_true, List.mem_map, beq_iff_eq]

theorem mem_take_map_iff (rid : String) :
    ∀ (l : List UsageRecord) (n : Nat),
      rid ∈ (l.take n).map (·.run_id) ↔
        (l.any (fun r => r.run_id == rid) = true ∧
          l.findIdx (fun r => r.run_id == rid) < n)
  | [], n => by simp
  | a :: tl, 0 => by simp
  | a :: tl, n + 1 => by
    by_cases h : a.run_id = rid
    · simp [List.findIdx_cons, h]
    · have hb : (a.run_id == rid) = false := by
        simpa using h
      simp only [List.take, List.map, List.mem_cons, List.any_cons,
        List.findIdx_cons, hb, Bool.false_or, cond_false]
      rw [mem_take_map_iff rid tl n]
      constructor
      · rintro (h' | ⟨h1, h2⟩)
        · exact absurd h'.symm h
        · exact ⟨h1, by omega⟩
      · rintro ⟨h1, h2⟩
        exact Or.inr ⟨h1, by omega⟩

/-! ## Sorting is canonical: permutation invariance -/

theorem sortedDescRecords_perm (records : List UsageRecord) :
    (sortedDescRecords records).Perm records :=
  List.perm_insertionSort descLE records

theorem chronRecords_perm (records : List UsageRecord) :
    (chronRecords records).Perm records :=
  (List.perm_insertionSort chronLE _).trans (List.perm_insertionSort descLE records)

theorem chronRecords_sorted (records : List UsageRecord) :
    List.Sorted chronLE (chronRecords records) :=
  List.sorted_insertionSort chronLE _

theorem sortedDescRecords_eq_of_perm {rs rs' : List UsageRecord}
    (h : rs.Perm rs') : sortedDescRecords rs = sortedDescRecords rs' :=
  List.eq_of_perm_of_sorted
    ((List.perm_insertionSort descLE rs).trans
      (h.trans (List.perm_insertionSort descLE rs').symm))
    (List.sorted_insertionSort descLE rs)
    (List.sorted_insertionSort descLE rs')

theorem gateDecision_eq_of_perm {rs rs' : List UsageRecord}
    (h : rs.Perm rs') (cfg : Policy) (rid : String) :
    gateDecision cfg rs rid = gateDecision cfg rs' rid := by
  unfold gateDecision chronRecords
  rw [sortedDescRecords_eq_of_perm h]

/-! ## Claim theorems -/

/-- C1: For every record set visible for a scope, the gate decision is
computed by first sorting the records ascending by timestamp with ties broken
by ascending lexicographic run identifier (`chronRecords records` is a
permutation of the input sorted by `chronLE`), then performing a single-pass
greedy replay that admits the first record unconditionally and admits each
later record only if the elapsed time since the most recently admitted record,
truncated toward zero in whole hours, is at least the policy gap, skipped
records never becoming the new last-admitted reference (`validRuns` coincides
with the spec-side `specReplay`), and the decision is computed from that
admitted subsequence. -/
theorem gate_decision_via_canonical_sort_and_spec_replay
    (cfg : Policy) (records : List UsageRecord) (myRunId : String) :
    (chronRecords records).Perm records
    ∧ List.Sorted chronLE (chronRecords records)
    ∧ validRuns cfg.minGapHoursPerIp (chronRecords records)
        = specReplay cfg.minGapHoursPerIp (chronRecords records)
    ∧ gateDecision cfg records myRunId
        = decisionFromValid cfg
            (specReplay cfg.minGapHoursPerIp (chronRecords records))
            (sortedDescRecords records) myRunId := by
  refine ⟨chronRecords_perm records, chronRecords_sorted records,
    validRuns_eq_specReplay _ _, ?_⟩
  unfold gateDecision
  rw [validRuns_eq_specReplay]

/-- C2: the gap filter runs before the quota cut: the caller is admitted iff
its run id occurs among the first `max` entries of the gap-filtered
subsequence `validRuns`; it is denied `gap_not_satisfied` iff its run id is
missing from `validRuns` entirely, and denied `max_runs_reached` iff its run
id is in `validRuns` but only past the quota prefix. -/
theorem gate_gap_filter_before_quota_truncation
    (cfg : Policy) (records : List UsageRecord) (rid : String) :
    ((gateDecision cfg records rid).should_run = true ↔
        rid ∈ ((validRuns cfg.minGapHoursPerIp (chronRecords records)).take
          cfg.maxRunsPerIpPerDay).map (·.run_id))
    ∧ ((gateDecision cfg records rid).reason = "gap_not_satisfied" ↔
        rid ∉ (validRuns cfg.minGapHoursPerIp (chronRecords records)).map
          (·.run_id))
    ∧ ((gateDecision cfg records rid).reason = "max_runs_reached" ↔
        (rid ∈ (validRuns cfg.minGapHoursPerIp (chronRecords records)).map
            (·.run_id) ∧
          rid ∉ ((validRuns cfg.minGapHoursPerIp (chronRecords records)).take
            cfg.maxRunsPerIpPerDay).map (·.run_id))) := by
  have hbf : (false = true) → False := by decide
  have hs1 : ("max_runs_reached" = "gap_not_satisfied") → False := by decide
  have hs2 : ("" = "gap_not_satisfied") → False := by decide
  have hs3 : ("" = "max_runs_reached") → False := by decide
  have hs4 : ("gap_not_satisfied" = "max_runs_reached") → False := by decide
  have htake := mem_take_map_iff rid
    (validRuns cfg.minGapHoursPerIp (chronRecords records)) cfg.maxRunsPerIpPerDay
  have hmem := mem_map_iff_any rid
    (validRuns cfg.minGapHoursPerIp (chronRecords records))
  by_cases hAny : (validRuns cfg.minGapHoursPerIp (chronRecords records)).any
      (fun r => r.run_id == rid) = true
  · by_cases hIdx : (validRuns cfg.minGapHoursPerIp (chronRecords records)).findIdx
        (fun r => r.run_id == rid) ≥ cfg.maxRunsPerIpPerDay
    · have hgd : gateDecision cfg records rid =
          { should_run := false, reason := "max_runs_reached",
            uses_today := (sortedDescRecords records).length,
            last_use_utc := (sortedDescRecords records).head?.map (·.ts) } := by
        simp only [gateDecision, decisionFromValid]
        rw [if_neg (by simpa using hAny), if_pos hIdx]
      rw [hgd]
      refine ⟨?_, ?_, ?_⟩
      · constructor
        · intro h
          exact (hbf h).elim
        · intro h
          have := (htake.mp h).2
          omega
      · constructor
        · intro h
          exact (hs1 h).elim
        · intro h
          exact absurd (hmem.mpr hAny) h
      · constructor
        · intro _
          refine ⟨hmem.mpr hAny, ?_⟩
          intro h
          have := (htake.mp h).2
          omega
        · intro _
          rfl
    · have hgd : gateDecision cfg records rid =
          { should_run := true, reason := "",
            uses_today := (sortedDescRecords records).length,
            last_use_utc := (sortedDescRecords records).head?.map (·.ts) } := by
        simp only [gateDecision, decisionFromValid]
        rw [if_neg (by simpa using hAny), if_neg hIdx]
      rw [hgd]
      refine ⟨?_, ?_, ?_⟩
      · constructor
        · intro _
          exact htake.mpr ⟨hAny, by omega⟩
        · intro _
          rfl
      · constructor
        · intro h
          exact (hs2 h).elim
        · intro h
          exact absurd (hmem.mpr hAny) h
      · constructor
        · intro h
          exact (hs3 h).elim
        · rintro ⟨_, h2⟩
          exact absurd (htake.mpr ⟨hAny, by omega⟩) h2
  · have hgd : gateDecision cfg records rid =
        { should_run := false, reason := "gap_not_satisfied",
          uses_today := (sortedDescRecords records).length,
          last_use_utc := (sortedDescRecords records).head?.map (·.ts) } := by
      simp only [gateDecision, decisionFromValid]
      rw [if_pos (by simpa using hAny)]
    rw [hgd]
    refine ⟨?_, ?_, ?_⟩
    · constructor
      · intro h
        exact (hbf h).elim
      · intro h
        exact absurd (htake.mp h).1 hAny
    · constructor
      · intro _
        intro hm
        exact hAny (hmem.mp hm)
      · intro _
        rfl
    · constructor
      · intro h
        exact (hs4 h).elim
      · rintro ⟨h1, _⟩
        exact absurd (hmem.mp h1) hAny

/-- C3 counterexample: a failed store read does **not** yield the
`error_fail_open` admit verdict.  The read is absorbed as an empty record
list, so the gate proceeds and (the caller's run id being absent from an
empty `validRuns`) denies with `gap_not_satisfied` — refuting "the gate
response has admit=true with reason error_fail_open" for store read
failures. -/
theorem gate_read_failure_not_fail_open_counterexample :
    (gateEndpoint ⟨3, 7⟩ true .readError "run-1").should_run = false
    ∧ (gateEndpoint ⟨3, 7⟩ true .readError "run-1").reason
        = "gap_not_satisfied" := by
  exact ⟨rfl, rfl⟩

/-- C3 amended: when the store read fails, `getRecordsForIpToday` returns the
empty set instead of propagating the error, and the gate computes an ordinary
decision over that empty snapshot (never an error response); the
`error_fail_open` verdict arises only when the handler body itself throws
(modelled by a missing `ip` in the request). -/
theorem gate_read_failure_fail_open_amended
    (cfg : Policy) (rid : String) (store : StoreReadOutcome) :
    getRecordsForIpToday .readError = []
    ∧ gateEndpoint cfg true .readError rid = gateDecision cfg [] rid
    ∧ (gateEndpoint cfg false store rid).should_run = true
    ∧ (gateEndpoint cfg false store rid).reason = "error_fail_open" :=
  ⟨rfl, rfl, rfl, rfl⟩

/-- C4 (code bug): over an empty scope the gate *denies* with
`gap_not_satisfied` instead of admitting: with no visible records,
`validRuns` is empty, the caller's run id is not found, and the handler takes
the `gap_not_satisfied` branch.  This contradicts the spec ("Empty scope →
fresh request always admitted, uses_today = 0") and the repository's own test
`tests/app.test.js` ("should allow first run (no history)", which mocks an
empty store and expects `should_run = true`).  `uses_today = 0` does hold. -/
theorem gate_empty_scope_denies_code_bug (cfg : Policy) (rid : String) :
    gateDecision cfg [] rid =
      { should_run := false, reason := "gap_not_satisfied",
        uses_today := 0, last_use_utc := none } := rfl

/-- C7: the gate decision is a pure function of the snapshot as a multiset —
for permuted input record lists the admit flag and the reason coincide. -/
theorem gate_decision_permutation_invariant
    (cfg : Policy) (rid : String) (rs rs' : List UsageRecord)
    (h : rs.Perm rs') :
    (gateDecision cfg rs rid).should_run = (gateDecision cfg rs' rid).should_run
    ∧ (gateDecision cfg rs rid).reason = (gateDecision cfg rs' rid).reason := by
  rw [gateDecision_eq_of_perm h]
  exact ⟨rfl, rfl⟩

/-- Witness for C7 at a concrete permuted pair of snapshots. -/
theorem gate_decision_permutation_invariant_witness :
    (gateDecision ⟨3, 7⟩ [⟨0, "a"⟩, ⟨3600000 * 8, "b"⟩] "b").should_run
      = (gateDecision ⟨3, 7⟩ [⟨3600000 * 8, "b"⟩, ⟨0, "a"⟩] "b").should_run
    ∧ (gateDecision ⟨3, 7⟩ [⟨0, "a"⟩, ⟨3600000 * 8, "b"⟩] "b").reason
      = (gateDecision ⟨3, 7⟩ [⟨3600000 * 8, "b"⟩, ⟨0, "a"⟩] "b").reason :=
  gate_decision_permutation_invariant ⟨3, 7⟩ "b"
    [⟨0, "a"⟩, ⟨3600000 * 8, "b"⟩] [⟨3600000 * 8, "b"⟩, ⟨0, "a"⟩]
    (by decide)

theorem validRunsLoop_allSameTs (gapH : Int) (hgap : 1 ≤ gapH) (t : Int) :
    ∀ l : List UsageRecord, (∀ r ∈ l, r.ts = t) →
      validRunsLoop gapH l (some t) = []
  | [], _ => rfl
  | rec :: rest, hts => by
    simp only [validRunsLoop]
    have h0 : differenceInHours rec.ts t = 0 := by
      rw [hts rec (List.mem_cons_self rec rest)]
      simp [differenceInHours]
    rw [h0, if_neg (by omega)]
    exact validRunsLoop_allSameTs gapH hgap t rest
      (fun r hr => hts r (List.mem_cons_of_mem rec hr))

/-- Over a block of records sharing one timestamp the replay admits exactly
the head of the canonical order (for any positive gap policy). -/
theorem validRuns_allSameTs (gapH : Int) (hgap : 1 ≤ gapH) (t : Int)
    (h0 : UsageRecord) (rest : List UsageRecord) (hh0 : h0.ts = t)
    (hrest : ∀ r ∈ rest, r.ts = t) :
    validRuns gapH (h0 :: rest) = [h0] := by
  simp only [validRuns, validRunsLoop]
  rw [hh0, validRunsLoop_allSameTs gapH hgap t rest hrest]

/-- C5: under policy `{max := 3, gap := 7}`, over a snapshot of five records
sharing one timestamp with five distinct run identifiers, a caller is
admitted iff its run identifier is lexicographically least among the
snapshot, and every denied caller is denied with `gap_not_satisfied` (so
never `max_runs_reached`). -/
theorem gate_tied_timestamps_admit_lex_smallest
    (t : Int) (rs : List UsageRecord) (caller : UsageRecord)
    (hlen : rs.length = 5) (hts : ∀ r ∈ rs, r.ts = t)
    (_hnodup : (rs.map (·.run_id)).Nodup) (hmem : caller ∈ rs) :
    ((gateDecision ⟨3, 7⟩ rs caller.run_id).should_run = true ↔
      ∀ r ∈ rs, ridLE caller.run_id r.run_id)
    ∧ ((gateDecision ⟨3, 7⟩ rs caller.run_id).should_run = false →
        (gateDecision ⟨3, 7⟩ rs caller.run_id).reason = "gap_not_satisfied") := by
  have hbt : (true = false) → False := by decide
  have hbf : (false = true) → False := by decide
  have hperm := chronRecords_perm rs
  have hsorted := chronRecords_sorted rs
  have htsS : ∀ r ∈ chronRecords rs, r.ts = t := fun r hr =>
    hts r (hperm.mem_iff.mp hr)
  have hlenS : (chronRecords rs).length = 5 := by
    rw [hperm.length_eq, hlen]
  obtain ⟨h0, rest, hcons⟩ : ∃ h0 rest, chronRecords rs = h0 :: rest := by
    cases hc : chronRecords rs with
    | nil =>
      rw [hc] at hlenS
      cases hlenS
    | cons a l => exact ⟨a, l, rfl⟩
  have hh0t : h0.ts = t := htsS h0 (by rw [hcons]; exact List.mem_cons_self _ _)
  have hvalid : validRuns (7 : Int) (chronRecords rs) = [h0] := by
    rw [hcons]
    exact validRuns_allSameTs 7 (by omega) t h0 rest hh0t
      (fun r hr => htsS r (by rw [hcons]; exact List.mem_cons_of_mem _ hr))
  have hgd : gateDecision ⟨3, 7⟩ rs caller.run_id =
      decisionFromValid ⟨3, 7⟩ [h0] (sortedDescRecords rs) caller.run_id := by
    unfold gateDecision
    rw [show (⟨3, 7⟩ : Policy).minGapHoursPerIp = 7 from rfl, hvalid]
  have hmin : ∀ r ∈ chronRecords rs, ridLE h0.run_id r.run_id := by
    intro r hr
    rw [hcons] at hr
    rcases List.mem_cons.mp hr with rfl | hr'
    · exact ridLE_refl _
    · have hrel : chronLE h0 r :=
        List.rel_of_sorted_cons (hcons ▸ hsorted) r hr'
      rcases hrel with hlt | ⟨_, hle⟩
      · have hrt : r.ts = t := htsS r (by rw [hcons]; exact List.mem_cons_of_mem _ hr')
        omega
      · exact hle
  have hh0mem : h0 ∈ rs :=
    hperm.mem_iff.mp (by rw [hcons]; exact List.mem_cons_self _ _)
  have hcallerS : caller ∈ chronRecords rs := hperm.mem_iff.mpr hmem
  by_cases hc : h0.run_id = caller.run_id
  · have heval : decisionFromValid ⟨3, 7⟩ [h0] (sortedDescRecords rs) caller.run_id =
        { should_run := true, reason := "",
          uses_today := (sortedDescRecords rs).length,
          last_use_utc := (sortedDescRecords rs).head?.map (·.ts) } := by
      simp only [decisionFromValid]
      rw [if_neg (by simp [hc]), if_neg (by simp [List.findIdx_cons, hc])]
    constructor
    · constructor
      · intro _ r hr
        rw [← hc]
        exact hmin r (hperm.mem_iff.mpr hr)
      · intro _
        rw [hgd, heval]
    · intro hfalse
      rw [hgd, heval] at hfalse
      exact (hbt hfalse).elim
  · have heval : decisionFromValid ⟨3, 7⟩ [h0] (sortedDescRecords rs) caller.run_id =
        { should_run := false, reason := "gap_not_satisfied",
          uses_today := (sortedDescRecords rs).length,
          last_use_utc := (sortedDescRecords rs).head?.map (·.ts) } := by
      simp only [decisionFromValid]
      rw [if_pos (by simp [hc])]
    constructor
    · constructor
      · intro hrun
        rw [hgd, heval] at hrun
        exact (hbf hrun).elim
      · intro hall
        exact absurd (ridLE_antisymm (hmin caller hcallerS) (hall h0 hh0mem)) hc
    · intro _
      rw [hgd, heval]

/-- Witness for C5: five records at one timestamp, distinct run ids; the
caller carrying the lexicographically least id `"a"`. -/
theorem gate_tied_timestamps_admit_lex_smallest_witness :
    ((gateDecision ⟨3, 7⟩
        [⟨5, "b"⟩, ⟨5, "a"⟩, ⟨5, "d"⟩, ⟨5, "c"⟩, ⟨5, "e"⟩] "a").should_run = true ↔
      ∀ r ∈ ([⟨5, "b"⟩, ⟨5, "a"⟩, ⟨5, "d"⟩, ⟨5, "c"⟩, ⟨5, "e"⟩] : List UsageRecord),
        ridLE "a" r.run_id)
    ∧ ((gateDecision ⟨3, 7⟩
        [⟨5, "b"⟩, ⟨5, "a"⟩, ⟨5, "d"⟩, ⟨5, "c"⟩, ⟨5, "e"⟩] "a").should_run = false →
      (gateDecision ⟨3, 7⟩
        [⟨5, "b"⟩, ⟨5, "a"⟩, ⟨5, "d"⟩, ⟨5, "c"⟩, ⟨5, "e"⟩] "a").reason
          = "gap_not_satisfied") :=
  gate_tied_timestamps_admit_lex_smallest 5
    [⟨5, "b"⟩, ⟨5, "a"⟩, ⟨5, "d"⟩, ⟨5, "c"⟩, ⟨5, "e"⟩] ⟨5, "a"⟩
    (by decide) (by decide) (by decide) (by decide)

/-- C6: under policy `{max := 3, gap := 7}`, records at 0h, 8h, 16h and
23h59m (given to the gate in scrambled store order): the first three are
admitted and the 23h59m record is denied `max_runs_reached` — it passes the
gap replay (7h59m truncates to 7 ≥ 7) and fails only the quota cut. -/
theorem gate_quota_after_gap_concrete_day :
    (gateDecision ⟨3, 7⟩
      [⟨3600000 * 16, "r3"⟩, ⟨0, "r1"⟩, ⟨3600000 * 23 + 60000 * 59, "r4"⟩,
        ⟨3600000 * 8, "r2"⟩] "r1").should_run = true
    ∧ (gateDecision ⟨3, 7⟩
      [⟨3600000 * 16, "r3"⟩, ⟨0, "r1"⟩, ⟨3600000 * 23 + 60000 * 59, "r4"⟩,
        ⟨3600000 * 8, "r2"⟩] "r2").should_run = true
    ∧ (gateDecision ⟨3, 7⟩
      [⟨3600000 * 16, "r3"⟩, ⟨0, "r1"⟩, ⟨3600000 * 23 + 60000 * 59, "r4"⟩,
        ⟨3600000 * 8, "r2"⟩] "r3").should_run = true
    ∧ (gateDecision ⟨3, 7⟩
      [⟨3600000 * 16, "r3"⟩, ⟨0, "r1"⟩, ⟨3600000 * 23 + 60000 * 59, "r4"⟩,
        ⟨3600000 * 8, "r2"⟩] "r4").should_run = false
    ∧ (gateDecision ⟨3, 7⟩
      [⟨3600000 * 16, "r3"⟩, ⟨0, "r1"⟩, ⟨3600000 * 23 + 60000 * 59, "r4"⟩,
        ⟨3600000 * 8, "r2"⟩] "r4").reason = "max_runs_reached" := by
  refine ⟨?_, ?_, ?_, ?_, ?_⟩ <;> decide

/-! ## Retention sweeper (`cleanupGCS`) -/

/-- One stored record file `(filename, birthtimeMs)` inside a scope
directory. -/
abbrev FileEntry := String × Int

/-- One `safeIp` partition directory with its record files. -/
abbrev IpDir := String × List FileEntry

/-- One `dateStr` partition directory with its per-address directories. -/
abbrev DateDir := String × List IpDir

/-- The children of the walk root `LOCAL_DATA_DIR/ips`.  `appendToGCS` writes
records only at depth `ips/<date>/<safeIp>/<file>.json`, so the recursive
`walk` of `cleanupGCS` operates on exactly this layout; the root `ips`
directory itself is walked but never passed to `fs.rmdirSync`. -/
abbrev LocalRoot := List DateDir

/-- File-level pass of `walk`: `if (now - stat.birthtimeMs > retentionMs)
fs.unlinkSync(filePath)` — strictly-older files are deleted, the rest kept. -/
def sweepFiles (now ret : Int) (files : List FileEntry) : List FileEntry :=
  files.filter (fun f => !(decide (now - f.2 > ret)))

/-- Directory-level pass of `walk` over one date directory: each `safeIp`
directory is swept recursively, then removed iff it ended up empty
(`if (fs.readdirSync(filePath).length === 0) fs.rmdirSync(filePath)`). -/
def sweepIpDirs (now ret : Int) (dirs : List IpDir) : List IpDir :=
  dirs.filterMap (fun d =>
    let files := sweepFiles now ret d.2
    if files.isEmpty then none else some (d.1, files))

/-- Directory-level pass of `walk` over the root's date directories. -/
def sweepDateDirs (now ret : Int) (dirs : List DateDir) : List DateDir :=
  dirs.filterMap (fun d =>
    let ips := sweepIpDirs now ret d.2
    if ips.isEmpty then none else some (d.1, ips))

/-- The local branch of `cleanupGCS`: `walk(path.join(LOCAL_DATA_DIR, 'ips'))`.
The walk root survives the sweep whatever happens inside it. -/
def cleanupLocal (now ret : Int) (root : LocalRoot) : LocalRoot :=
  sweepDateDirs now ret root

/-- One bucket object `(name, timeCreated in ms)` for the networked branch. -/
abbrev RemoteObject := String × Int

/-- The GCS branch of `cleanupGCS`: list all objects and delete exactly the
ones with `now - createdTime > retentionMs`. -/
def cleanupRemote (now ret : Int) (objects : List RemoteObject) : List RemoteObject :=
  objects.filter (fun f => !(decide (now - f.2 > ret)))

/-- A record file with birth time `b` is reachable in the tree at
`ips/<d>/<i>/<f>`. -/
def containsLocalRecord (root : LocalRoot) (d i f : String) (b : Int) : Prop :=
  ∃ dd ∈ root, dd.1 = d ∧ ∃ ii ∈ dd.2, ii.1 = i ∧ (f, b) ∈ ii.2

instance (root : LocalRoot) (d i f : String) (b : Int) :
    Decidable (containsLocalRecord root d i f b) := by
  unfold containsLocalRecord
  infer_instance

theorem isEmpty_eq_false_of_ne_nil {α : Type _} {l : List α} (h : l ≠ []) :
    l.isEmpty = false := by
  cases l with
  | nil => exact absurd rfl h
  | cons a l => rfl

theorem ne_nil_of_isEmpty_eq_false {α : Type _} {l : List α}
    (h : l.isEmpty = false) : l ≠ [] := by
  cases l with
  | nil => cases h
  | cons a l => simp

theorem sweepIpDirs_no_empty (now ret : Int) (dirs : List IpDir) :
    ∀ ii ∈ sweepIpDirs now ret dirs, ii.2 ≠ [] := by
  intro ii hii
  obtain ⟨a, _, hfa⟩ := List.mem_filterMap.mp hii
  dsimp only at hfa
  split at hfa
  · cases hfa
  · next hne =>
    cases hfa
    exact ne_nil_of_isEmpty_eq_false (by simpa using hne)

theorem cleanupLocal_no_empty_dirs (now ret : Int) (root : LocalRoot) :
    ∀ dd ∈ cleanupLocal now ret root, dd.2 ≠ [] ∧ ∀ ii ∈ dd.2, ii.2 ≠ [] := by
  intro dd hdd
  obtain ⟨a, _, hfa⟩ := List.mem_filterMap.mp hdd
  dsimp only at hfa
  split at hfa
  · cases hfa
  · next hne =>
    cases hfa
    refine ⟨ne_nil_of_isEmpty_eq_false (by simpa using hne), ?_⟩
    exact sweepIpDirs_no_empty now ret a.2

/-- C8 counterexample: the walk root (`LOCAL_DATA_DIR/ips` itself) is a
directory that the sweep empties but never removes — `fs.rmdirSync` is only
ever applied to entries *inside* a walked directory, never to the walk root.
Sweeping a store holding a single expired record leaves the root present and
empty, refuting "every directory emptied by the sweep is removed". -/
theorem retention_root_dir_not_pruned_counterexample :
    cleanupLocal 7200000 3600000
        [("2024-01-01", [("1.2.3.4", [("old.json", 0)])])] = []
    ∧ ([("2024-01-01", [("1.2.3.4", [("old.json", (0 : Int))])])] : LocalRoot)
        ≠ [] := by
  exact ⟨rfl, by decide⟩

/-- C8 amended: a record strictly younger than the retention horizon is never
deleted by the sweep (on either backend), and on the local backend every
partition directory *below the walk root* that is emptied is removed (the
swept tree contains no empty date or address directory); the walk root itself
persists even when emptied. -/
theorem retention_sweep_amended (now ret : Int) (root : LocalRoot)
    (objs : List RemoteObject) (d i f : String) (b : Int) (o : RemoteObject) :
    (containsLocalRecord root d i f b → now - b < ret →
      containsLocalRecord (cleanupLocal now ret root) d i f b)
    ∧ (o ∈ objs → now - o.2 < ret → o ∈ cleanupRemote now ret objs)
    ∧ (∀ dd ∈ cleanupLocal now ret root, dd.2 ≠ [] ∧ ∀ ii ∈ dd.2, ii.2 ≠ []) := by
  refine ⟨?_, ?_, cleanupLocal_no_empty_dirs now ret root⟩
  · rintro ⟨dd, hdd, hd1, ii, hii, hi1, hfb⟩ hyoung
    have hfile : (f, b) ∈ sweepFiles now ret ii.2 :=
      List.mem_filter.mpr ⟨hfb, by simp; omega⟩
    have hne : sweepFiles now ret ii.2 ≠ [] := List.ne_nil_of_mem hfile
    have hii' : (ii.1, sweepFiles now ret ii.2) ∈ sweepIpDirs now ret dd.2 :=
      List.mem_filterMap.mpr ⟨ii, hii, by
        dsimp only
        rw [if_neg (by simp [isEmpty_eq_false_of_ne_nil hne])]⟩
    have hne' : sweepIpDirs now ret dd.2 ≠ [] := List.ne_nil_of_mem hii'
    have hdd' : (dd.1, sweepIpDirs now ret dd.2) ∈ cleanupLocal now ret root :=
      List.mem_filterMap.mpr ⟨dd, hdd, by
        dsimp only
        rw [if_neg (by simp [isEmpty_eq_false_of_ne_nil hne'])]⟩
    exact ⟨(dd.1, sweepIpDirs now ret dd.2), hdd', hd1,
      (ii.1, sweepFiles now ret ii.2), hii', hi1, hfile⟩
  · intro ho hyoung
    exact List.mem_filter.mpr ⟨ho, by simp; omega⟩

/-- Witness for C8 (amended): a record 500 ms old under a 3 600 000 ms horizon
survives the local sweep, evaluated on a one-record store. -/
theorem retention_sweep_amended_witness :
    containsLocalRecord
      (cleanupLocal 1000 3600000 [("d", [("i", [("f.json", 500)])])])
      "d" "i" "f.json" 500 :=
  (retention_sweep_amended 1000 3600000 [("d", [("i", [("f.json", 500)])])]
    [("o.json", 900)] "d" "i" "f.json" 500 ("o.json", 900)).1
    (by decide) (by decide)

/-! ## Authentication middleware (`verifyAuth`) and routes -/

/-- Model of `String.prototype.startsWith` at the character level (structural, so that
concrete instances evaluate). -/
def startsWithB : List Char → List Char → Bool
  | _, [] => true
  | [], _ :: _ => false
  | c :: cs, p :: ps => c == p && startsWithB cs ps

/-- Model of `String.prototype.split(' ')`: cut at every single space, keeping empty
segments. -/
def splitOnSpace : List Char → List (List Char)
  | [] => [[]]
  | c :: cs =>
    if c = ' ' then [] :: splitOnSpace cs
    else
      match splitOnSpace cs with
      | [] => [[c]]
      | seg :: segs => (c :: seg) :: segs

/-- Source expression `authHeader.startsWith('Bearer ')`. -/
def headerStartsWithBearer (h : String) : Bool :=
  startsWithB h.data "Bearer ".data

/-- Source expression `authHeader.split(' ')[1]`: the second space-separated word, when it
exists. -/
def headerToken (h : String) : Option String :=
  ((splitOnSpace h.data)[1]?).map String.mk

/-- Config fields `COLLECTOR_TOKEN` (required but possibly unset) and `HMAC_SECRET`
(optional) from `config.js`. -/
structure AuthConfig where
  collectorToken : Option String
  hmacSecret : Option String
deriving DecidableEq, Repr

/-- The parts of one inbound request that `verifyAuth` inspects: the
`Authorization` header, the `x-signature` header, and the raw body bytes the
HMAC is computed over. -/
structure HttpRequest where
  authorization : Option String
  xSignature : Option String
  rawBody : String
deriving DecidableEq, Repr

/-- Outcome of the middleware: an error response with its status code, or
`next()`. -/
inductive AuthOutcome where
  | rejected (status : Nat)
  | authorized
deriving DecidableEq, Repr

/-- The `verifyAuth` middleware.  `hmacSha256Base64 secret body` abstracts
`crypto.createHmac('sha256', secret).update(body).digest('base64')` (an
external primitive of the crypto library, passed as a parameter).
Order of checks as in the source: header presence/shape (401), token
mismatch (403), then — only when both `HMAC_SECRET` and `x-signature` are
present — signature mismatch (401). -/
def verifyAuth (hmacSha256Base64 : String → String → String)
    (cfg : AuthConfig) (req : HttpRequest) : AuthOutcome :=
  match req.authorization with
  | none => .rejected 401
  | some h =>
    if ¬ headerStartsWithBearer h then .rejected 401
    else
      match headerToken h with
      | none => .rejected 403
      | some token =>
        if cfg.collectorToken ≠ some token then .rejected 403
        else
          match cfg.hmacSecret, req.xSignature with
          | some secret, some signature =>
            if signature ≠ hmacSha256Base64 secret req.rawBody then .rejected 401
            else .authorized
          | _, _ => .authorized

/-- The append-only event log: one entry per persisted record, keyed by the
scope `(dateStr, safeIp)` encoded in its storage path. -/
structure EventLog where
  entries : List ((String × String) × UsageRecord)
deriving DecidableEq, Repr

/-- Store operation `list(scope)`: every currently persisted record of one scope. -/
def EventLog.listScope (log : EventLog) (scope : String × String) :
    List UsageRecord :=
  log.entries.filterMap (fun e => if e.1 = scope then some e.2 else none)

/-- Store operation `append(record)` (`appendToGCS`): persist one record under a fresh key of
its scope; no existing entry is touched. -/
def EventLog.append (log : EventLog) (scope : String × String)
    (r : UsageRecord) : EventLog :=
  ⟨log.entries ++ [(scope, r)]⟩

/-- Route `app.post('/ingest')` behind `verifyAuth`: a rejected request produces the
error status and leaves the log untouched; an authorized one appends. -/
def ingestRoute (hmac : String → String → String) (auth : AuthConfig)
    (req : HttpRequest) (scope : String × String) (record : UsageRecord)
    (log : EventLog) : Nat × EventLog :=
  match verifyAuth hmac auth req with
  | .rejected status => (status, log)
  | .authorized => (200, log.append scope record)

/-- Route `app.post('/gate')` behind `verifyAuth`: the handler lists the caller's
scope (`readOk = false` models a failed backend read) and computes the
decision; it performs no append, update or delete on the log. -/
def gateRoute (hmac : String → String → String) (auth : AuthConfig)
    (cfg : Policy) (req : HttpRequest) (scope : String × String)
    (ipPresent readOk : Bool) (runId : String) (log : EventLog) :
    Option GateResult × EventLog :=
  match verifyAuth hmac auth req with
  | .rejected _ => (none, log)
  | .authorized =>
    (some (gateEndpoint cfg ipPresent
      (if readOk then .ok (log.listScope scope) else .readError) runId), log)

/-- C9: when the HMAC second factor is configured and the request carries a
signature that does not match the HMAC of the exact request body, the request
is rejected with an error status (401) even though its bearer credential is
valid, and it has no side effect on the event log. -/
theorem hmac_mismatch_rejected
    (hmac : String → String → String) (auth : AuthConfig) (req : HttpRequest)
    (h tok sec sig : String)
    (hauth : req.authorization = some h)
    (hpre : headerStartsWithBearer h = true)
    (htok : headerToken h = some tok)
    (hcfg : auth.collectorToken = some tok)
    (hsec : auth.hmacSecret = some sec)
    (hsig : req.xSignature = some sig)
    (hmismatch : sig ≠ hmac sec req.rawBody) :
    verifyAuth hmac auth req = .rejected 401
    ∧ ∀ (scope : String × String) (record : UsageRecord) (log : EventLog),
        ingestRoute hmac auth req scope record log = (401, log) := by
  have hv : verifyAuth hmac auth req = .rejected 401 := by
    simp only [verifyAuth, hauth]
    rw [if_neg (by simp [hpre])]
    simp only [htok]
    rw [if_neg (by simp [hcfg])]
    simp only [hsec, hsig]
    rw [if_pos hmismatch]
  refine ⟨hv, fun scope record log => ?_⟩
  unfold ingestRoute
  rw [hv]

/-- Witness for C9: a concrete request with a valid bearer token and a wrong
signature under a configured secret, with `hmac` instantiated by a concrete
keyed digest function. -/
theorem hmac_mismatch_rejected_witness :
    verifyAuth (fun s b => s ++ ":" ++ b)
        ⟨some "tok1", some "sec"⟩
        ⟨some "Bearer tok1", some "bad", "body"⟩ = .rejected 401
    ∧ ∀ (scope : String × String) (record : UsageRecord) (log : EventLog),
        ingestRoute (fun s b => s ++ ":" ++ b)
          ⟨some "tok1", some "sec"⟩
          ⟨some "Bearer tok1", some "bad", "body"⟩ scope record log
            = (401, log) :=
  hmac_mismatch_rejected (fun s b => s ++ ":" ++ b)
    ⟨some "tok1", some "sec"⟩ ⟨some "Bearer tok1", some "bad", "body"⟩
    "Bearer tok1" "tok1" "sec" "bad"
    rfl (by decide) (by decide) rfl rfl rfl (by decide)

/-- C10: a gate call never mutates the event log — for every request (any
auth outcome, any store-read outcome) the log after the call is the log
before it, and every scope lists exactly the same records. -/
theorem gate_route_preserves_event_log
    (hmac : String → String → String) (auth : AuthConfig) (cfg : Policy)
    (req : HttpRequest) (scope : String × String) (ipPresent readOk : Bool)
    (runId : String) (log : EventLog) :
    (gateRoute hmac auth cfg req scope ipPresent readOk runId log).2 = log
    ∧ ∀ scope' : String × String,
        ((gateRoute hmac auth cfg req scope ipPresent readOk runId log).2).listScope
            scope'
          = log.listScope scope' := by
  unfold gateRoute
  cases verifyAuth hmac auth req <;> exact ⟨rfl, fun _ => rfl⟩

/-! ## Concrete evaluation examples -/
example :
    gateDecision ⟨3, 7⟩
      [⟨3600000 * 16, "c"⟩, ⟨0, "a"⟩, ⟨3600000 * 23 + 60000 * 59, "d"⟩,
        ⟨3600000 * 8, "b"⟩] "d" =
    { should_run := false, reason := "max_runs_reached", uses_today := 4,
      last_use_utc := some (3600000 * 23 + 60000 * 59) } := by decide

example : gateDecision ⟨3, 7⟩ [] "r1" =
    { should_run := false, reason := "gap_not_satisfied", uses_today := 0,
      last_use_utc := none } := rfl

example :
    gateDecision ⟨3, 7⟩
      [⟨5, "b"⟩, ⟨5, "a"⟩, ⟨5, "d"⟩, ⟨5, "c"⟩, ⟨5, "e"⟩] "a" =
    { should_run := true, reason := "", uses_today := 5,
      last_use_utc := some 5 } := by decide

example :
    (gateDecision ⟨3, 7⟩
      [⟨5, "b"⟩, ⟨5, "a"⟩, ⟨5, "d"⟩, ⟨5, "c"⟩, ⟨5, "e"⟩] "c").reason =
    "gap_not_satisfied" := by decide
